import Mathlib

/-!
# FracLib: a shallow embedding of the fraction engine

This file embeds the core of the FracLib C++ library (`src/frac.cpp`,
`include/frac.h`) in Lean 4 and proves or refutes the frozen specification
claims about it.

Modelling conventions:
* A C++ `int` is modelled as `Int`.  Wherever the C++ source performs an
  arithmetic operation on `int` whose result can exceed the signed 32-bit
  range, the result is wrapped with `w32` (two's-complement wrap, i.e.
  arithmetic modulo `2^32` with representatives in `[-2^31, 2^31)`), which is
  what the claims direct for the undefined-behaviour overflow cases.
* A C++ operation that throws is modelled with `Except FracError`; an
  operation whose execution can reach genuinely undefined behaviour with no
  result at all (modulo by zero inside the gcd loop, or the unbounded loop
  failing to terminate) is wrapped in `Option`, where `none` means "no
  defined result".
* Mutation of `this` is modelled by returning the final field state; for the
  increment/decrement helpers, which may throw *after* having already
  written some fields, the model returns the optional error together with
  the field state at the moment control leaves the function.
-/

namespace FracLib

/-- Two's-complement wrap of a signed 32-bit `int`: the representative of
`x` modulo `2^32` lying in `[-2^31, 2^31)`. -/
def w32 (x : Int) : Int := Int.bmod x (2 ^ 32)

/-- The value range of a C++ signed 32-bit `int`. -/
def int32 (x : Int) : Prop := -(2 ^ 31) ≤ x ∧ x ≤ 2 ^ 31 - 1

instance (x : Int) : Decidable (int32 x) := by unfold int32; infer_instance

/-- `std::numeric_limits<int>::max()`. -/
def INT_MAX : Int := 2 ^ 31 - 1

/-- `std::numeric_limits<int>::min()`. -/
def INT_MIN : Int := -(2 ^ 31)

/-- The three error kinds raised by the library (`std::invalid_argument`
with the zero-divisor message, `std::overflow_error`, and
`std::invalid_argument` with the format message). -/
inductive FracError where
  | zeroDivisor
  | overflow
  | invalidFormat
deriving DecidableEq, Repr

/-- The `Frac` value type: `{ int numerator; int denominator; int whole; }`
(declaration order as in `frac.h`). -/
structure Frac where
  numerator : Int
  denominator : Int
  whole : Int
deriving DecidableEq, Repr

/-- `willMultiplicationOverflow` (frac.cpp:50-60).  The internal `a * b`
which C++ performs on `int` (wrapping on overflow) is modelled by `w32`;
likewise the division taken of the wrapped result. -/
def willMultiplicationOverflow (a b : Int) : Bool :=
  if a = 0 ∨ b = 0 then false
  else if a = -1 ∧ b = INT_MIN then true
  else if b = -1 ∧ a = INT_MIN then true
  else
    let result := w32 (a * b)
    decide (w32 (result.tdiv b) ≠ a)

/-- `willAdditionOverflow` (frac.cpp:62-66).  The two subtractions
`INT_MAX - b` and `INT_MIN - b` cannot themselves overflow under the
branch guards, so they are left exact. -/
def willAdditionOverflow (a b : Int) : Bool :=
  if 0 < b ∧ INT_MAX - b < a then true
  else if b < 0 ∧ a < INT_MIN - b then true
  else false

/-- `willSubtractionOverflow` (frac.cpp:68-72). -/
def willSubtractionOverflow (a b : Int) : Bool :=
  if b < 0 ∧ INT_MAX + b < a then true
  else if 0 < b ∧ a < INT_MIN + b then true
  else false

/-- The gcd loop inside `Frac::simplify` (frac.cpp:739-753), fuelled.
`none` models undefined behaviour: the loop body executes `a %= b` or
`b %= a` with a zero divisor (modulo by zero), or the `while (true)` loop
fails to terminate within the supplied fuel.  Both operands are the
`std::abs` images of `int` values, hence naturals. -/
def gcdLoop : Nat → Nat → Nat → Option Nat
  | 0, _, _ => none
  | fuel + 1, a, b =>
    if b < a then
      if b = 0 then none
      else if a % b = 0 then some b
      else gcdLoop fuel (a % b) b
    else
      if a = 0 then none
      else if b % a = 0 then some a
      else gcdLoop fuel a (b % a)

/-- `Frac::simplify` (frac.cpp:717-764).  Mirrors the source step by step:
quick return on zero denominator; the zero-numerator reset; the fold of the
numerator into the whole part (C++ `/` and `%` on `int` truncate toward
zero, i.e. `Int.tdiv` / `Int.tmod`); the negative-remainder adjustment; the
gcd loop on the absolute values; division of both fields by the gcd; and
the final sign normalisation.  `std::abs` applied to `INT_MIN` wraps, hence
the `w32` around the absolute values. -/
def Frac.simplify (f : Frac) : Option Frac :=
  if f.denominator = 0 then some f
  else if f.numerator = 0 then some { numerator := 0, denominator := 1, whole := 0 }
  else
    let whole1 := w32 (f.whole + w32 (f.numerator.tdiv f.denominator))
    let num1 := w32 (f.numerator.tmod f.denominator)
    let adjusting := num1 < 0 ∧ whole1 ≠ 0
    let num2 := if adjusting then w32 (num1 + w32 |f.denominator|) else num1
    let whole2 :=
      if adjusting then (if 0 < num2 then w32 (whole1 - 1) else whole1) else whole1
    let a := (w32 |num2|).toNat
    let b := (w32 |f.denominator|).toNat
    match gcdLoop (a + b + 1) a b with
    | none => none
    | some g =>
      let num3 := w32 (num2.tdiv (g : Int))
      let den3 := w32 (f.denominator.tdiv (g : Int))
      if den3 < 0 then
        some { numerator := w32 (-num3), denominator := w32 (-den3), whole := whole2 }
      else
        some { numerator := num3, denominator := den3, whole := whole2 }

/-- `Frac::Frac(int n)` (frac.cpp:79). -/
def mkFracInt (n : Int) : Frac := { numerator := n, denominator := 1, whole := 0 }

/-- `Frac::Frac(int n, int d, bool isSimplifying = false)` (frac.cpp:80-86):
throws `ZeroDivisor` on a zero denominator before the value exists, then
optionally simplifies. -/
def mkFrac (n d : Int) (isSimplifying : Bool) : Option (Except FracError Frac) :=
  if d = 0 then some (.error .zeroDivisor)
  else
    let f : Frac := { numerator := n, denominator := d, whole := 0 }
    if isSimplifying then (f.simplify).map .ok else some (.ok f)

/-- `Frac::Frac(int w, int n, int d, bool isSimplifying = false)`
(frac.cpp:87-93). -/
def mkFracW (w n d : Int) (isSimplifying : Bool) : Option (Except FracError Frac) :=
  if d = 0 then some (.error .zeroDivisor)
  else
    let f : Frac := { numerator := n, denominator := d, whole := w }
    if isSimplifying then (f.simplify).map .ok else some (.ok f)

/-- `Frac::operator+(const Frac&)` (frac.cpp:116-127): overflow-checks the
three products and the sum, then builds the result through the two-argument
constructor.  The `whole` fields of both operands are not consulted. -/
def Frac.add (f other : Frac) : Option (Except FracError Frac) :=
  if willMultiplicationOverflow f.numerator other.denominator ∨
     willMultiplicationOverflow other.numerator f.denominator ∨
     willMultiplicationOverflow f.denominator other.denominator ∨
     willAdditionOverflow (w32 (f.numerator * other.denominator))
       (w32 (other.numerator * f.denominator)) then
    some (.error .overflow)
  else
    mkFrac (w32 (w32 (f.numerator * other.denominator) + w32 (other.numerator * f.denominator)))
      (w32 (f.denominator * other.denominator)) false

/-- `Frac::operator*(int)` (frac.cpp:178-183). -/
def Frac.mulInt (f : Frac) (value : Int) : Option (Except FracError Frac) :=
  if willMultiplicationOverflow f.numerator value then some (.error .overflow)
  else mkFrac (w32 (f.numerator * value)) f.denominator false

/-- Reversed-operand `operator*(int, const Frac&)` (frac.cpp:252-254): no
overflow check at all, just `Frac(frac.numerator * value, frac.denominator)`. -/
def mulIntFrac (value : Int) (f : Frac) : Option (Except FracError Frac) :=
  mkFrac (w32 (f.numerator * value)) f.denominator false

/-- `Frac::operator/=(int)` (frac.cpp:376-386).  After the checks the
source executes `numerator = denominator * value;` followed by
`denominator = numerator;` — the second line reads the *new* numerator. -/
def Frac.divAssignInt (f : Frac) (value : Int) : Except FracError Frac :=
  if f.numerator = 0 then .error .zeroDivisor
  else if willMultiplicationOverflow value f.denominator then .error .overflow
  else
    let num1 := w32 (f.denominator * value)
    .ok { numerator := num1, denominator := num1, whole := f.whole }

/-- `incrementLogic` (frac.cpp:397-426).  Returns the optional raised error
together with the field state at the moment control leaves the function; in
the `whole != 0` path the source converts to an improper numerator *before*
running the overflow check, so the mutated numerator is visible when the
check throws.  Pre/post forms both apply `+1` to the numerator, so
`isPre` does not affect the resulting state. -/
def incrementLogic (f : Frac) (isPre : Bool) : Option FracError × Frac :=
  if f.whole ≠ 0 then
    let numerator1 := w32 (f.numerator + w32 (f.whole * f.denominator))
    if willAdditionOverflow numerator1 1 then
      (some .overflow, { f with numerator := numerator1 })
    else
      let numerator2 := w32 (numerator1 + 1)
      let whole1 := w32 (numerator2.tdiv f.denominator)
      let numerator3 := w32 (numerator2.tmod f.denominator)
      if f.denominator < 0 then
        (none, { numerator := w32 (-numerator3), denominator := w32 (-f.denominator),
                 whole := whole1 })
      else
        (none, { numerator := numerator3, denominator := f.denominator, whole := whole1 })
  else
    if willAdditionOverflow f.numerator 1 then (some .overflow, f)
    else (none, { f with numerator := w32 (f.numerator + 1) })

/-- `decrementLogic` (frac.cpp:428-457).  Same structure as
`incrementLogic` with `-1`; note the source checks
`willAdditionOverflow(numerator, 1)` (not `-1`) in the `whole == 0` branch,
exactly as written. -/
def decrementLogic (f : Frac) (isPre : Bool) : Option FracError × Frac :=
  if f.whole ≠ 0 then
    let numerator1 := w32 (f.numerator + w32 (f.whole * f.denominator))
    if willAdditionOverflow numerator1 (-1) then
      (some .overflow, { f with numerator := numerator1 })
    else
      let numerator2 := w32 (numerator1 - 1)
      let whole1 := w32 (numerator2.tdiv f.denominator)
      let numerator3 := w32 (numerator2.tmod f.denominator)
      if f.denominator < 0 then
        (none, { numerator := w32 (-numerator3), denominator := w32 (-f.denominator),
                 whole := whole1 })
      else
        (none, { numerator := numerator3, denominator := f.denominator, whole := whole1 })
  else
    if willAdditionOverflow f.numerator 1 then (some .overflow, f)
    else (none, { f with numerator := w32 (f.numerator - 1) })

/-- `std::to_string` on an `int`. -/
def intStr (x : Int) : String := toString x

/-- `Frac::toString` (frac.cpp:766-769). -/
def Frac.toString (f : Frac) : String :=
  if f.whole ≠ 0 then
    intStr f.whole ++ " " ++ intStr f.numerator ++ "/" ++ intStr f.denominator
  else
    intStr f.numerator ++ "/" ++ intStr f.denominator

/-- `Frac::operator=(const Frac&)` (frac.cpp:669-675): copies `numerator`
and `denominator` only (`whole` is not assigned); the self-assignment guard
has no field-level effect. -/
def Frac.assign (f other : Frac) : Frac :=
  { f with numerator := other.numerator, denominator := other.denominator }

/-- The improper cross-multiplication numerator
`whole * denominator + numerator` computed (with `int` wrapping) at the top
of every comparison operator (frac.cpp:492-599). -/
def Frac.improperNum (f : Frac) : Int :=
  w32 (w32 (f.whole * f.denominator) + f.numerator)

/-- `Frac::operator==(const Frac&)` (frac.cpp:492-499). -/
def Frac.eqOp (f other : Frac) : Bool :=
  decide (w32 (f.improperNum * other.denominator) = w32 (other.improperNum * f.denominator))

/-- `Frac::operator!=(const Frac&)` (frac.cpp:513-515). -/
def Frac.neOp (f other : Frac) : Bool := !(f.eqOp other)

/-- `Frac::operator>=(const Frac&)` (frac.cpp:529-536). -/
def Frac.geOp (f other : Frac) : Bool :=
  decide (w32 (other.improperNum * f.denominator) ≤ w32 (f.improperNum * other.denominator))

/-- `Frac::operator<=(const Frac&)` (frac.cpp:550-557). -/
def Frac.leOp (f other : Frac) : Bool :=
  decide (w32 (f.improperNum * other.denominator) ≤ w32 (other.improperNum * f.denominator))

/-- `Frac::operator>(const Frac&)` (frac.cpp:571-578). -/
def Frac.gtOp (f other : Frac) : Bool :=
  decide (w32 (other.improperNum * f.denominator) < w32 (f.improperNum * other.denominator))

/-- `Frac::operator<(const Frac&)` (frac.cpp:592-599). -/
def Frac.ltOp (f other : Frac) : Bool :=
  decide (w32 (f.improperNum * other.denominator) < w32 (other.improperNum * f.denominator))

/-- The rational value represented by a triple, per the data model:
`(whole * denominator + numerator) / denominator`. -/
def Frac.val (f : Frac) : ℚ :=
  ((f.whole * f.denominator + f.numerator : Int) : ℚ) / ((f.denominator : Int) : ℚ)

/-- The `consumeWhitespace` lambda of `Frac::parseFromStream`
(frac.cpp:822-827): skip leading spaces and tabs. -/
def consumeWhitespace : List Char → List Char
  | [] => []
  | c :: rest => if c = ' ' ∨ c = '\t' then consumeWhitespace rest else c :: rest

/-- The `isDigit` lambda of `Frac::parseFromStream` (frac.cpp:816-820):
`std::isdigit(is.peek())`, where peeking at end of stream yields EOF, which
is not a digit. -/
def peekIsDigit : List Char → Bool
  | [] => false
  | c :: _ => c.isDigit

/-- The digit-accumulation loop of the `parseNumber` lambda
(frac.cpp:829-836): `temp = temp * 10 + (digit - 48)` (the source writes
the factor as `std::pow(10,1)`, which is exactly `10`); the conversion of
an out-of-range `double` back to `int` is modelled as a wrap. -/
def parseNumberAux (acc : Int) : List Char → Int × List Char
  | [] => (acc, [])
  | c :: rest =>
    if c.isDigit then parseNumberAux (w32 (w32 (acc * 10) + ((c.toNat : Int) - 48))) rest
    else (acc, c :: rest)

/-- The `parseNumber` lambda of `Frac::parseFromStream` (frac.cpp:829-836). -/
def parseNumber (l : List Char) : Int × List Char := parseNumberAux 0 l

/-- The tail of `Frac::parseFromStream` (frac.cpp:882-907): zero-denominator
check, assignment of `denominator`, the overflow-checked mixed-fraction
numerator computation, and the optional simplification.  The member `whole`
of the object is never written by the parser (the local `whole` shadows
it). -/
def finishParse (f : Frac) (whole num denom : Int) (isSimplifying : Bool) :
    Option (Except FracError Frac) :=
  if denom = 0 then some (.error .zeroDivisor)
  else if whole ≠ 0 then
    if willMultiplicationOverflow denom whole then some (.error .overflow)
    else
      let numerator1 := w32 (denom * whole)
      if willAdditionOverflow numerator1 num then some (.error .overflow)
      else
        let g : Frac := { numerator := w32 (numerator1 + num), denominator := denom,
                          whole := f.whole }
        if isSimplifying then (g.simplify).map .ok else some (.ok g)
  else
    let g : Frac := { numerator := num, denominator := denom, whole := f.whole }
    if isSimplifying then (g.simplify).map .ok else some (.ok g)

/-- `Frac::parseFromStream` (frac.cpp:809-907) over a character list.  The
digits-only path (stream exhausted after the first number, frac.cpp:842-846)
assigns `numerator = num; denominator = num;` and returns without any
zero-denominator check. -/
def Frac.parseFromStream (f : Frac) (input : List Char) (isSimplifying : Bool) :
    Option (Except FracError Frac) :=
  let s0 := consumeWhitespace input
  if ¬ peekIsDigit s0 then some (.error .invalidFormat)
  else
    let p1 := parseNumber s0
    let num := p1.1
    match p1.2 with
    | [] => some (.ok { f with numerator := num, denominator := num })
    | ch :: s2 =>
      if ch = ' ' then
        let whole := num
        let s3 := consumeWhitespace s2
        if ¬ peekIsDigit s3 then some (.error .invalidFormat)
        else
          let p2 := parseNumber s3
          let num2 := p2.1
          match p2.2 with
          | [] => some (.error .invalidFormat)
          | ch2 :: s5 =>
            if ch2 ≠ '/' then some (.error .invalidFormat)
            else
              let s6 := consumeWhitespace s5
              if ¬ peekIsDigit s6 then some (.error .invalidFormat)
              else
                let p3 := parseNumber s6
                finishParse f whole num2 p3.1 isSimplifying
      else if ch = '/' then
        let s3 := consumeWhitespace s2
        if ¬ peekIsDigit s3 then some (.error .invalidFormat)
        else
          let p2 := parseNumber s3
          finishParse f 0 num p2.1 isSimplifying
      else some (.error .invalidFormat)

/-- All three fields of a `Frac` lie in the signed 32-bit range — the
standing property of any actual C++ `Frac` object. -/
def Frac.inRange (f : Frac) : Prop :=
  int32 f.numerator ∧ int32 f.denominator ∧ int32 f.whole

instance (f : Frac) : Decidable f.inRange := by unfold Frac.inRange; infer_instance

/-! ## Arithmetic helper lemmas for the wrap model -/

theorem w32_eq_self {x : Int} (h1 : -(2 ^ 31) ≤ x) (h2 : x < 2 ^ 31) : w32 x = x := by
  unfold w32
  rw [Int.bmod_def]
  have e : ((2 ^ 32 : Nat) : Int) = 4294967296 := by norm_num
  rw [e]
  split <;> omega

theorem w32_lb (x : Int) : -(2 ^ 31) ≤ w32 x := by
  unfold w32
  have h := Int.le_bmod (x := x) (m := 2 ^ 32) (by norm_num)
  have e : (((2 ^ 32 : Nat) : Int) / 2) = 2 ^ 31 := by norm_num
  rw [e] at h
  exact h

theorem w32_ub (x : Int) : w32 x < 2 ^ 31 := by
  unfold w32
  have h := Int.bmod_lt (x := x) (m := 2 ^ 32) (by norm_num)
  have e : ((((2 ^ 32 : Nat) : Int) + 1) / 2) = 2 ^ 31 := by norm_num
  rw [e] at h
  exact h

theorem w32_int32 (x : Int) : int32 (w32 x) :=
  ⟨w32_lb x, by have := w32_ub x; omega⟩

theorem w32_dvd_sub (x : Int) : ((2 : Int) ^ 32) ∣ (w32 x - x) := by
  have h := Int.dvd_bmod_sub_self (x := x) (m := 2 ^ 32)
  have e : ((2 ^ 32 : Nat) : Int) = (2 : Int) ^ 32 := by norm_num
  rwa [e] at h

theorem w32_congr {x y : Int} (h : ((2 : Int) ^ 32) ∣ (x - y)) : w32 x = w32 y := by
  unfold w32
  rw [← Int.emod_bmod_congr x, ← Int.emod_bmod_congr y]
  congr 1
  have e : ((2 ^ 32 : Nat) : Int) = (2 : Int) ^ 32 := by norm_num
  rw [e]
  omega

/-- `natAbs` of a truncating remainder is the `Nat` remainder of the
`natAbs`es. -/
theorem natAbs_tmod (a b : Int) : (a.tmod b).natAbs = a.natAbs % b.natAbs := by
  cases a <;> cases b <;>
    simp only [Int.tmod, Int.ofNat_eq_coe, Int.natAbs_neg, Int.natAbs_ofNat,
      Int.natAbs_negSucc]

/-- A truncating remainder keeps the sign of the dividend (nonpositive
case). -/
theorem tmod_nonpos (a b : Int) (h : a ≤ 0) : a.tmod b ≤ 0 := by
  cases a with
  | ofNat m =>
    have hm : m = 0 := by
      simp only [Int.ofNat_eq_coe] at h
      omega
    subst hm
    simp
  | negSucc m =>
    clear h
    cases b <;> simp only [Int.tmod, Int.ofNat_eq_coe] <;> omega

/-- A dividend smaller than the divisor in magnitude is its own truncating
remainder. -/
theorem tmod_eq_self {a b : Int} (h : a.natAbs < b.natAbs) : a.tmod b = a := by
  have h1 := natAbs_tmod a b
  rw [Nat.mod_eq_of_lt h] at h1
  rcases le_or_lt 0 a with ha | ha
  · have h2 := Int.tmod_nonneg b ha
    omega
  · have h2 := tmod_nonpos a b (le_of_lt ha)
    omega

/-- The gcd loop of `Frac::simplify` computes `Nat.gcd` whenever both
operands are positive and it is given enough fuel. -/
theorem gcdLoop_eq_gcd : ∀ (fuel a b : Nat), 0 < a → 0 < b → a + b ≤ fuel →
    gcdLoop fuel a b = some (Nat.gcd a b) := by
  intro fuel
  induction fuel with
  | zero => intro a b ha hb hf; omega
  | succ n ih =>
    intro a b ha hb hf
    simp only [gcdLoop]
    by_cases hba : b < a
    · rw [if_pos hba, if_neg (by omega)]
      by_cases hz : a % b = 0
      · rw [if_pos hz]
        have hdvd : b ∣ a := Nat.dvd_of_mod_eq_zero hz
        rw [Nat.gcd_comm, Nat.gcd_eq_left hdvd]
      · rw [if_neg hz]
        have hlt : a % b < b := Nat.mod_lt _ hb
        rw [ih (a % b) b (by omega) hb (by omega)]
        rw [← Nat.gcd_rec b a, Nat.gcd_comm b a]
    · rw [if_neg hba, if_neg (by omega)]
      by_cases hz : b % a = 0
      · rw [if_pos hz]
        have hdvd : a ∣ b := Nat.dvd_of_mod_eq_zero hz
        rw [Nat.gcd_eq_left hdvd]
      · rw [if_neg hz]
        have hlt : b % a < a := Nat.mod_lt _ ha
        rw [ih a (b % a) ha (by omega) (by omega)]
        rw [Nat.gcd_comm a (b % a), ← Nat.gcd_rec a b]

/-- The magnitude of a truncating quotient times the divisor magnitude is
bounded by the dividend magnitude. -/
theorem natAbs_tdiv_mul_le (a b : Int) : (a.tdiv b).natAbs * b.natAbs ≤ a.natAbs := by
  rw [Int.natAbs_tdiv]
  exact Nat.div_mul_le_self _ _

/-! ## C9: correctness of `willMultiplicationOverflow` -/

theorem willMulOverflow_key {a b : Int} (ha : int32 a) (hb0 : b ≠ 0) (ha0 : a ≠ 0)
    (h2 : ¬(b = -1 ∧ a = INT_MIN)) :
    w32 ((w32 (a * b)).tdiv b) = a ↔ int32 (a * b) := by
  constructor
  · intro heq
    by_contra hout
    have hrb := w32_lb (a * b)
    have hru := w32_ub (a * b)
    have hq := natAbs_tdiv_mul_le (w32 (a * b)) b
    have hb1 : 1 ≤ b.natAbs := by omega
    have hrabs : (w32 (a * b)).natAbs ≤ 2 ^ 31 := by omega
    have hqle : ((w32 (a * b)).tdiv b).natAbs ≤ ((w32 (a * b)).tdiv b).natAbs * b.natAbs :=
      Nat.le_mul_of_pos_right _ (by omega)
    have hqabs : ((w32 (a * b)).tdiv b).natAbs ≤ 2 ^ 31 := by omega
    by_cases hql : ((w32 (a * b)).tdiv b).natAbs ≤ 2 ^ 31 - 1
    · have hq32 : w32 ((w32 (a * b)).tdiv b) = (w32 (a * b)).tdiv b :=
        w32_eq_self (by omega) (by omega)
      have haq : a = (w32 (a * b)).tdiv b := heq.symm.trans hq32
      have hanat := congrArg Int.natAbs haq
      have habs : (a * b).natAbs ≤ 2 ^ 31 := by
        rw [Int.natAbs_mul, hanat]
        exact le_trans hq hrabs
      have hab31 : a * b = 2 ^ 31 := by
        unfold int32 at hout
        omega
      have hr31 : w32 (a * b) = -(2 ^ 31) := by
        rw [hab31]
        decide
      have hqa : (w32 (a * b)).tdiv b = -a := by
        rw [hr31, ← hab31, show -(a * b) = (-a) * b by ring, Int.mul_tdiv_cancel _ hb0]
      rw [hqa] at haq
      omega
    · have hq31 : ((w32 (a * b)).tdiv b).natAbs = 2 ^ 31 := by omega
      have hbn1 : b.natAbs = 1 := by
        rw [hq31] at hq
        omega
      rcases Int.natAbs_eq_iff.mp hbn1 with hbv | hbv
      · have hbv1 : b = 1 := by exact_mod_cast hbv
        have hq_r : (w32 (a * b)).tdiv b = w32 (a * b) := by
          rw [hbv1]
          exact Int.tdiv_one _
        have hrv : w32 (a * b) = -(2 ^ 31) := by
          rw [hq_r] at hq31
          omega
        have hww : w32 ((w32 (a * b)).tdiv b) = w32 (a * b) := by
          rw [hq_r]
          unfold w32
          exact Int.bmod_bmod
        have ha_eq : a = -(2 ^ 31) := (heq.symm.trans hww).trans hrv
        apply hout
        rw [hbv1, mul_one, ha_eq]
        decide
      · have hbv1 : b = -1 := by
          have h1 : ((1 : Nat) : Int) = 1 := by norm_num
          omega
        have hq_r : (w32 (a * b)).tdiv b = -(w32 (a * b)) := by
          rw [hbv1, show (-1 : Int) = -(1 : Int) by norm_num, Int.tdiv_neg, Int.tdiv_one]
        have hrv : w32 (a * b) = -(2 ^ 31) := by omega
        have hqv : (w32 (a * b)).tdiv b = 2 ^ 31 := by omega
        have hA : a = -(2 ^ 31) := by
          rw [← heq, hqv]
          decide
        exact h2 ⟨hbv1, by rw [hA]; rfl⟩
  · intro hin
    have hr : w32 (a * b) = a * b := w32_eq_self hin.1 (by have := hin.2; omega)
    rw [hr, Int.mul_tdiv_cancel a hb0, w32_eq_self ha.1 (by have := ha.2; omega)]

/-- C9: for all signed 32-bit operands, `willMultiplicationOverflow(a, b)`
returns `true` exactly when the mathematical product `a * b` lies outside
the signed 32-bit range `[-2^31, 2^31 - 1]`, including the two's-complement
special case `INT_MIN * -1`; the internal wrapped multiplication is
modelled as arithmetic modulo `2^32`. -/
theorem willMultiplicationOverflow_correct {a b : Int} (ha : int32 a) (hb : int32 b) :
    willMultiplicationOverflow a b = true ↔ ¬ int32 (a * b) := by
  unfold willMultiplicationOverflow
  by_cases h0 : a = 0 ∨ b = 0
  · rw [if_pos h0]
    have hz : a * b = 0 := by rcases h0 with h | h <;> simp [h]
    simp only [Bool.false_eq_true, false_iff, not_not]
    rw [hz]
    decide
  · rw [if_neg h0]
    push_neg at h0
    obtain ⟨ha0, hb0⟩ := h0
    by_cases h1 : a = -1 ∧ b = INT_MIN
    · rw [if_pos h1]
      obtain ⟨e1, e2⟩ := h1
      subst e1
      subst e2
      simp only [true_iff]
      decide
    · rw [if_neg h1]
      by_cases h2 : b = -1 ∧ a = INT_MIN
      · rw [if_pos h2]
        obtain ⟨e1, e2⟩ := h2
        subst e1
        subst e2
        simp only [true_iff]
        decide
      · rw [if_neg h2]
        simp only [decide_eq_true_eq]
        have key := willMulOverflow_key ha hb0 ha0 h2
        constructor
        · intro hne hin
          exact hne (key.mpr hin)
        · intro hout heq
          exact hout (key.mp heq)

/-- Witness for C9 at the concrete input `(-1, INT_MIN)`: both operands are
in range and the predicate flags the out-of-range product `2^31`. -/
theorem willMultiplicationOverflow_correct_witness :
    int32 (-1) ∧ int32 INT_MIN ∧
      (willMultiplicationOverflow (-1) INT_MIN = true ↔ ¬ int32 ((-1) * INT_MIN)) :=
  ⟨by decide, by decide, willMultiplicationOverflow_correct (by decide) (by decide)⟩

/-! ## C1: the `denominator != 0` invariant and `operator/=(int)` -/

/-- C1 (code bug): dividing `Frac(1, 2)` by the integer `0` through
`operator/=(int)` raises no error at all and leaves the object with
`numerator = 0` and `denominator = 0`, violating the documented
`denominator != 0` invariant: the zero-divisor guard checks only the
left operand's numerator, never the integer divisor. -/
theorem divAssignInt_zero_denominator :
    Frac.divAssignInt { numerator := 1, denominator := 2, whole := 0 } 0 =
      .ok { numerator := 0, denominator := 0, whole := 0 } := rfl

/-! ## C2: the gcd loop and zero operands -/

/-- C2 (code bug): simplifying `4/2` folds the numerator to `0` and then
enters the gcd loop with `a = 0`, whose first iteration executes `b %= a`
— a modulo by zero; the model therefore yields no defined result. -/
theorem simplify_four_halves_undefined :
    Frac.simplify { numerator := 4, denominator := 2, whole := 0 } = none := by
  decide

/-! ## C3: atomicity of increment/decrement on overflow -/

/-- C3 (code bug): pre-incrementing the value `1 + 2147483646/1` (whole
part `1`) converts the numerator to improper form *before* the overflow
check fires, so the raised `Overflow` leaves the operand with a mutated
numerator (`2147483647` instead of the original `2147483646`). -/
theorem incrementLogic_mutates_before_overflow :
    incrementLogic { numerator := 2147483646, denominator := 1, whole := 1 } true =
      (some .overflow, { numerator := 2147483647, denominator := 1, whole := 1 }) ∧
    ({ numerator := 2147483647, denominator := 1, whole := 1 } : Frac) ≠
      { numerator := 2147483646, denominator := 1, whole := 1 } := by
  constructor
  · decide
  · decide

/-! ## C4: mixed-fraction addition -/

/-- C4 (code bug): `Frac(1,1,4) + Frac(1,1,2)` ignores the `whole` fields
of both operands, producing `6/8`; simplifying and formatting yields
`"3/4"`, not the `"2 3/4"` the specification (and the repository's own
`Frac2Frac_Addition` test) expects. -/
theorem add_ignores_whole_parts :
    mkFracW 1 1 4 false =
      some (.ok { numerator := 1, denominator := 4, whole := 1 }) ∧
    mkFracW 1 1 2 false =
      some (.ok { numerator := 1, denominator := 2, whole := 1 }) ∧
    Frac.add { numerator := 1, denominator := 4, whole := 1 }
        { numerator := 1, denominator := 2, whole := 1 } =
      some (.ok { numerator := 6, denominator := 8, whole := 0 }) ∧
    Frac.simplify { numerator := 6, denominator := 8, whole := 0 } =
      some { numerator := 3, denominator := 4, whole := 0 } ∧
    Frac.toString { numerator := 3, denominator := 4, whole := 0 } = "3/4" ∧
    "3/4" ≠ "2 3/4" := by
  refine ⟨rfl, rfl, rfl, rfl, rfl, by decide⟩

/-! ## C5: the digits-only parse path -/

/-- C5 (code bug): parsing the all-digit string `"25"` stores
`numerator = denominator = 25` — the represented value is `1`, not the
whole number `25` the specification describes — and parsing `"0"` even
produces the forbidden `0/0` state. -/
theorem parse_whole_number_defect :
    Frac.parseFromStream { numerator := 0, denominator := 1, whole := 0 } "25".toList false =
      some (.ok { numerator := 25, denominator := 25, whole := 0 }) ∧
    Frac.val { numerator := 25, denominator := 25, whole := 0 } = 1 ∧
    Frac.parseFromStream { numerator := 0, denominator := 1, whole := 0 } "0".toList false =
      some (.ok { numerator := 0, denominator := 0, whole := 0 }) := by
  refine ⟨rfl, ?_, rfl⟩
  unfold Frac.val
  norm_num

/-! ## C7: reversed integer multiplication -/

/-- C7 (code bug): `Frac(2^30) * 4` raises `Overflow`, but the reversed
form `4 * Frac(2^30)` has no overflow check and silently wraps the product
`2^32` to a numerator of `0` — the two forms are not identical and the
reversed form accepts an overflowing product. -/
theorem mulInt_reversed_mismatch :
    Frac.mulInt (mkFracInt 1073741824) 4 = some (.error .overflow) ∧
    mulIntFrac 4 (mkFracInt 1073741824) =
      some (.ok { numerator := 0, denominator := 1, whole := 0 }) := by
  refine ⟨rfl, rfl⟩

/-! ## C10: copy assignment leaves `whole` unchanged -/

/-- C10: `operator=(const Frac&)` copies only `numerator` and
`denominator` from the source; the destination keeps its own `whole`
field. -/
theorem assign_preserves_whole (a b : Frac) :
    (a.assign b).whole = a.whole ∧ (a.assign b).numerator = b.numerator ∧
      (a.assign b).denominator = b.denominator :=
  ⟨rfl, rfl, rfl⟩

/-! ## C6: the cross-multiplication comparison operators -/

/-- The wrapped improper-numerator chain is congruent (mod `2^32`) to the
exact cross product, so the two wrap to the same representative. -/
theorem improper_congr (f : Frac) (c : Int) :
    w32 (f.improperNum * c) = w32 ((f.whole * f.denominator + f.numerator) * c) := by
  apply w32_congr
  have h1 := w32_dvd_sub (w32 (f.whole * f.denominator) + f.numerator)
  have h2 := w32_dvd_sub (f.whole * f.denominator)
  have h3 : ((2 : Int) ^ 32) ∣
      (f.improperNum - (f.whole * f.denominator + f.numerator)) := by
    have e : f.improperNum - (f.whole * f.denominator + f.numerator)
        = (w32 (w32 (f.whole * f.denominator) + f.numerator)
            - (w32 (f.whole * f.denominator) + f.numerator))
          + (w32 (f.whole * f.denominator) - f.whole * f.denominator) := by
      unfold Frac.improperNum
      ring
    rw [e]
    exact dvd_add h1 h2
  have h4 := h3.mul_right c
  have e2 : (f.improperNum - (f.whole * f.denominator + f.numerator)) * c
      = f.improperNum * c - (f.whole * f.denominator + f.numerator) * c := by ring
  rwa [e2] at h4

/-- When the exact cross product fits in 32 bits, the wrapped comparison
operand equals it. -/
theorem cross_collapse (f : Frac) (c : Int)
    (h : int32 ((f.whole * f.denominator + f.numerator) * c)) :
    w32 (f.improperNum * c) = (f.whole * f.denominator + f.numerator) * c :=
  (improper_congr f c).trans (w32_eq_self h.1 (by have := h.2; omega))

/-- C6 (counterexample): with the negative-denominator operand `1 over -1`
(value `-1`) against `1/1` (value `1`), both cross products (`1` and `-1`)
are well within 32 bits, yet `operator<` returns `false` although the
represented values satisfy `-1 < 1`: raw cross-multiplication is wrong when
a denominator is negative. -/
theorem ltOp_negative_denominator_wrong :
    int32 ((( { numerator := 1, denominator := -1, whole := 0 } : Frac).whole *
        (-1) + 1) * 1) ∧
    int32 ((( { numerator := 1, denominator := 1, whole := 0 } : Frac).whole *
        1 + 1) * (-1)) ∧
    Frac.ltOp { numerator := 1, denominator := -1, whole := 0 }
      { numerator := 1, denominator := 1, whole := 0 } = false ∧
    Frac.val { numerator := 1, denominator := -1, whole := 0 } <
      Frac.val { numerator := 1, denominator := 1, whole := 0 } := by
  refine ⟨by decide, by decide, by decide, ?_⟩
  unfold Frac.val
  norm_num

/-- C6 (amended): when both denominators are positive and the two exact
cross products `(whole*den + num) * otherDen` fit in the 32-bit range, each
of the six comparison operators returns exactly the truth of the
corresponding order relation on the represented rational values, with
neither operand simplified.  (The counterexample above forces the
positive-denominator restriction; the source compensates no signs.) -/
theorem comparisonOps_correct (f o : Frac)
    (hfd : 0 < f.denominator) (hod : 0 < o.denominator)
    (h1 : int32 ((f.whole * f.denominator + f.numerator) * o.denominator))
    (h2 : int32 ((o.whole * o.denominator + o.numerator) * f.denominator)) :
    (f.eqOp o = true ↔ f.val = o.val) ∧
    (f.neOp o = true ↔ f.val ≠ o.val) ∧
    (f.ltOp o = true ↔ f.val < o.val) ∧
    (f.leOp o = true ↔ f.val ≤ o.val) ∧
    (f.gtOp o = true ↔ o.val < f.val) ∧
    (f.geOp o = true ↔ o.val ≤ f.val) := by
  have hL := cross_collapse f o.denominator h1
  have hR := cross_collapse o f.denominator h2
  have hfq : (0 : ℚ) < ((f.denominator : Int) : ℚ) := by exact_mod_cast hfd
  have hoq : (0 : ℚ) < ((o.denominator : Int) : ℚ) := by exact_mod_cast hod
  have heq : ((f.whole * f.denominator + f.numerator) * o.denominator =
      (o.whole * o.denominator + o.numerator) * f.denominator) ↔ (f.val = o.val) := by
    unfold Frac.val
    rw [div_eq_div_iff (ne_of_gt hfq) (ne_of_gt hoq)]
    constructor
    · intro h
      exact_mod_cast h
    · intro h
      exact_mod_cast h
  have hlt : ((f.whole * f.denominator + f.numerator) * o.denominator <
      (o.whole * o.denominator + o.numerator) * f.denominator) ↔ (f.val < o.val) := by
    unfold Frac.val
    rw [div_lt_div_iff₀ hfq hoq]
    constructor
    · intro h
      exact_mod_cast h
    · intro h
      exact_mod_cast h
  have hle : ((f.whole * f.denominator + f.numerator) * o.denominator ≤
      (o.whole * o.denominator + o.numerator) * f.denominator) ↔ (f.val ≤ o.val) := by
    unfold Frac.val
    rw [div_le_div_iff₀ hfq hoq]
    constructor
    · intro h
      exact_mod_cast h
    · intro h
      exact_mod_cast h
  have hlt2 : ((o.whole * o.denominator + o.numerator) * f.denominator <
      (f.whole * f.denominator + f.numerator) * o.denominator) ↔ (o.val < f.val) := by
    unfold Frac.val
    rw [div_lt_div_iff₀ hoq hfq]
    constructor
    · intro h
      exact_mod_cast h
    · intro h
      exact_mod_cast h
  have hle2 : ((o.whole * o.denominator + o.numerator) * f.denominator ≤
      (f.whole * f.denominator + f.numerator) * o.denominator) ↔ (o.val ≤ f.val) := by
    unfold Frac.val
    rw [div_le_div_iff₀ hoq hfq]
    constructor
    · intro h
      exact_mod_cast h
    · intro h
      exact_mod_cast h
  refine ⟨?_, ?_, ?_, ?_, ?_, ?_⟩
  · unfold Frac.eqOp
    rw [hL, hR]
    simp only [decide_eq_true_eq]
    exact heq
  · have hne : f.neOp o = true ↔ ¬ (f.eqOp o = true) := by
      unfold Frac.neOp
      cases f.eqOp o <;> simp
    rw [hne]
    unfold Frac.eqOp
    rw [hL, hR]
    simp only [decide_eq_true_eq]
    exact not_congr heq
  · unfold Frac.ltOp
    rw [hL, hR]
    simp only [decide_eq_true_eq]
    exact hlt
  · unfold Frac.leOp
    rw [hL, hR]
    simp only [decide_eq_true_eq]
    exact hle
  · unfold Frac.gtOp
    rw [hL, hR]
    simp only [decide_eq_true_eq]
    exact hlt2
  · unfold Frac.geOp
    rw [hL, hR]
    simp only [decide_eq_true_eq]
    exact hle2

/-- Witness for C6 (amended) at `1/2` versus `1/3`: both denominators
positive, cross products `3` and `2` in range, and all six operators agree
with the rational order. -/
theorem comparisonOps_correct_witness :
    (0 : Int) < ({ numerator := 1, denominator := 2, whole := 0 } : Frac).denominator ∧
    (0 : Int) < ({ numerator := 1, denominator := 3, whole := 0 } : Frac).denominator ∧
    int32 (((0 : Int) * 2 + 1) * 3) ∧ int32 (((0 : Int) * 3 + 1) * 2) ∧
    ((Frac.eqOp { numerator := 1, denominator := 2, whole := 0 }
        { numerator := 1, denominator := 3, whole := 0 } = true ↔
      Frac.val { numerator := 1, denominator := 2, whole := 0 } =
        Frac.val { numerator := 1, denominator := 3, whole := 0 }) ∧
    (Frac.neOp { numerator := 1, denominator := 2, whole := 0 }
        { numerator := 1, denominator := 3, whole := 0 } = true ↔
      Frac.val { numerator := 1, denominator := 2, whole := 0 } ≠
        Frac.val { numerator := 1, denominator := 3, whole := 0 }) ∧
    (Frac.ltOp { numerator := 1, denominator := 2, whole := 0 }
        { numerator := 1, denominator := 3, whole := 0 } = true ↔
      Frac.val { numerator := 1, denominator := 2, whole := 0 } <
        Frac.val { numerator := 1, denominator := 3, whole := 0 }) ∧
    (Frac.leOp { numerator := 1, denominator := 2, whole := 0 }
        { numerator := 1, denominator := 3, whole := 0 } = true ↔
      Frac.val { numerator := 1, denominator := 2, whole := 0 } ≤
        Frac.val { numerator := 1, denominator := 3, whole := 0 }) ∧
    (Frac.gtOp { numerator := 1, denominator := 2, whole := 0 }
        { numerator := 1, denominator := 3, whole := 0 } = true ↔
      Frac.val { numerator := 1, denominator := 3, whole := 0 } <
        Frac.val { numerator := 1, denominator := 2, whole := 0 }) ∧
    (Frac.geOp { numerator := 1, denominator := 2, whole := 0 }
        { numerator := 1, denominator := 3, whole := 0 } = true ↔
      Frac.val { numerator := 1, denominator := 3, whole := 0 } ≤
        Frac.val { numerator := 1, denominator := 2, whole := 0 })) :=
  ⟨by decide, by decide, by decide, by decide,
    comparisonOps_correct { numerator := 1, denominator := 2, whole := 0 }
      { numerator := 1, denominator := 3, whole := 0 }
      (by decide) (by decide) (by decide) (by decide)⟩

/-! ## C8: idempotency of `simplify` -/

/-- The state invariant produced by the general (nonzero-numerator,
positive-denominator) path of `simplify`: positive denominator, a nonzero
proper remainder coprime to the denominator, sign carried on the whole part
whenever the numerator is negative, and all fields in 32-bit range. -/
def Frac.postSimplify (g : Frac) : Prop :=
  0 < g.denominator ∧ g.numerator ≠ 0 ∧
  g.numerator.natAbs < g.denominator.natAbs ∧
  Nat.gcd g.numerator.natAbs g.denominator.natAbs = 1 ∧
  (g.numerator < 0 → g.whole = 0) ∧
  int32 g.numerator ∧ int32 g.denominator ∧ int32 g.whole

/-- C8 (counterexample): `simplify` is not idempotent.  On the
negative-denominator state `whole = 2, -1 over -2`, one `simplify` produces
`whole = 1, -1 over 2` (the final sign flip re-creates a negative numerator
next to a nonzero whole part), and a second `simplify` renormalises that to
`whole = 0, 1 over 2`, which differs field-wise. -/
theorem simplify_not_idempotent :
    Frac.simplify { numerator := -1, denominator := -2, whole := 2 } =
      some { numerator := -1, denominator := 2, whole := 1 } ∧
    Frac.simplify { numerator := -1, denominator := 2, whole := 1 } =
      some { numerator := 1, denominator := 2, whole := 0 } ∧
    ({ numerator := 1, denominator := 2, whole := 0 } : Frac) ≠
      { numerator := -1, denominator := 2, whole := 1 } := by
  refine ⟨by decide, by decide, by decide⟩

/-- The gcd-division stage of `simplify`: from a nonzero proper remainder
`N2` over a positive denominator `D` it produces a `postSimplify` state. -/
theorem finish_tail {D N2 W2 : Int} {g : Frac}
    (hD : 0 < D) (hDr : int32 D) (hN2 : N2 ≠ 0) (habs : N2.natAbs < D.natAbs)
    (hsign : N2 < 0 → W2 = 0) (hW2 : int32 W2)
    (h : (if w32 (D.tdiv ((Nat.gcd N2.natAbs D.natAbs : Nat) : Int)) < 0 then
            some { numerator := w32 (-(w32 (N2.tdiv ((Nat.gcd N2.natAbs D.natAbs : Nat) : Int)))),
                   denominator :=
                     w32 (-(w32 (D.tdiv ((Nat.gcd N2.natAbs D.natAbs : Nat) : Int)))),
                   whole := W2 }
          else
            some { numerator := w32 (N2.tdiv ((Nat.gcd N2.natAbs D.natAbs : Nat) : Int)),
                   denominator := w32 (D.tdiv ((Nat.gcd N2.natAbs D.natAbs : Nat) : Int)),
                   whole := W2 }) = some g) :
    g.postSimplify := by
  obtain ⟨hDr1, hDr2⟩ := hDr
  set g0 : Nat := Nat.gcd N2.natAbs D.natAbs with hg0
  have hg0pos : 0 < g0 := Nat.gcd_pos_of_pos_left D.natAbs (by omega)
  have hnum3abs : (N2.tdiv (g0 : Int)).natAbs = N2.natAbs / g0 := by
    rw [Int.natAbs_tdiv, Int.natAbs_ofNat]
    rfl
  have hden3abs : (D.tdiv (g0 : Int)).natAbs = D.natAbs / g0 := by
    rw [Int.natAbs_tdiv, Int.natAbs_ofNat]
    rfl
  have hgleN : g0 ≤ N2.natAbs := Nat.le_of_dvd (by omega) (hg0 ▸ Nat.gcd_dvd_left _ _)
  have hgleD : g0 ≤ D.natAbs := Nat.le_of_dvd (by omega) (hg0 ▸ Nat.gcd_dvd_right _ _)
  have hnum3ne : (N2.tdiv (g0 : Int)).natAbs ≠ 0 := by
    rw [hnum3abs]
    have := Nat.div_pos hgleN hg0pos
    omega
  have hden3ne : (D.tdiv (g0 : Int)).natAbs ≠ 0 := by
    rw [hden3abs]
    have := Nat.div_pos hgleD hg0pos
    omega
  have hbn : (N2.tdiv (g0 : Int)).natAbs ≤ N2.natAbs := by
    rw [hnum3abs]
    exact Nat.div_le_self _ _
  have hbd : (D.tdiv (g0 : Int)).natAbs ≤ D.natAbs := by
    rw [hden3abs]
    exact Nat.div_le_self _ _
  have hden3pos : 0 < D.tdiv (g0 : Int) := by
    have h1 : 0 ≤ D.tdiv (g0 : Int) := Int.tdiv_nonneg (by omega) (by omega)
    omega
  have habs3 : N2.natAbs / g0 < D.natAbs / g0 :=
    Nat.div_lt_div_of_lt_of_dvd (hg0 ▸ Nat.gcd_dvd_right _ _) habs
  have hcop3 : Nat.gcd (N2.natAbs / g0) (D.natAbs / g0) = 1 := by
    rw [hg0]
    exact Nat.coprime_div_gcd_div_gcd (hg0 ▸ hg0pos)
  have hw_num3 : w32 (N2.tdiv (g0 : Int)) = N2.tdiv (g0 : Int) :=
    w32_eq_self (by omega) (by omega)
  have hw_den3 : w32 (D.tdiv (g0 : Int)) = D.tdiv (g0 : Int) :=
    w32_eq_self (by omega) (by omega)
  rw [hw_den3] at h
  rw [if_neg (by omega)] at h
  rw [hw_num3] at h
  have hEg := Option.some.inj h
  subst hEg
  refine ⟨hden3pos, ?_, ?_, ?_, ?_, ?_, ?_, hW2⟩
  · show N2.tdiv (g0 : Int) ≠ 0
    omega
  · show (N2.tdiv (g0 : Int)).natAbs < (D.tdiv (g0 : Int)).natAbs
    rw [hnum3abs, hden3abs]
    exact habs3
  · show Nat.gcd (N2.tdiv (g0 : Int)).natAbs (D.tdiv (g0 : Int)).natAbs = 1
    rw [hnum3abs, hden3abs]
    exact hcop3
  · intro hneg
    show W2 = 0
    have hneg2 : N2.tdiv (g0 : Int) < 0 := hneg
    rcases lt_or_gt_of_ne hN2 with hx | hx
    · exact hsign hx
    · have : 0 ≤ N2.tdiv (g0 : Int) := Int.tdiv_nonneg (by omega) (by omega)
      omega
  · show int32 (N2.tdiv (g0 : Int))
    exact ⟨by omega, by omega⟩
  · show int32 (D.tdiv (g0 : Int))
    exact ⟨by omega, by omega⟩

/-- Every result the general path of `simplify` yields satisfies the
`postSimplify` invariant. -/
theorem simplify_inv {f g : Frac} (hd : 0 < f.denominator) (hdr : int32 f.denominator)
    (hn : f.numerator ≠ 0) (h : f.simplify = some g) : g.postSimplify := by
  have hd0 : f.denominator ≠ 0 := by omega
  have hdr1 : -(2 ^ 31) ≤ f.denominator := hdr.1
  have hdr2 : f.denominator ≤ 2 ^ 31 - 1 := hdr.2
  unfold Frac.simplify at h
  rw [if_neg hd0, if_neg hn] at h
  simp only [] at h
  have h_absden : w32 |f.denominator| = ((f.denominator.natAbs : Nat) : Int) := by
    rw [Int.abs_eq_natAbs]
    exact w32_eq_self (by omega) (by omega)
  have h_tmod_abs : (f.numerator.tmod f.denominator).natAbs < f.denominator.natAbs := by
    rw [natAbs_tmod]
    exact Nat.mod_lt _ (by omega)
  have h_num1 : w32 (f.numerator.tmod f.denominator) = f.numerator.tmod f.denominator :=
    w32_eq_self (by omega) (by omega)
  rw [h_absden, h_num1] at h
  simp only [Int.toNat_ofNat] at h
  have hcast : ((f.denominator.natAbs : Nat) : Int) = f.denominator := by omega
  rw [hcast] at h
  by_cases hN1 : f.numerator.tmod f.denominator = 0
  · rw [hN1] at h
    rw [if_neg (by intro hc; exact absurd hc.1 (lt_irrefl 0))] at h
    simp only [abs_zero] at h
    rw [show w32 (0 : Int) = 0 from by decide] at h
    simp only [Int.toNat_zero] at h
    have hloop : ∀ b1 : Nat, gcdLoop (0 + b1 + 1) 0 b1 = none := by
      intro b1
      have e : 0 + b1 + 1 = b1 + 1 := by omega
      rw [e]
      simp [gcdLoop]
    rw [hloop] at h
    simp only [] at h
    exact absurd h (by simp)
  · by_cases hadj : f.numerator.tmod f.denominator < 0 ∧
        w32 (f.whole + w32 (f.numerator.tdiv f.denominator)) ≠ 0
    · -- the negative-remainder adjustment fires
      simp only [if_pos hadj] at h
      have hb1 : -f.denominator < f.numerator.tmod f.denominator := by omega
      have h_num2 : w32 (f.numerator.tmod f.denominator + f.denominator) =
          f.numerator.tmod f.denominator + f.denominator :=
        w32_eq_self (by omega) (by omega)
      rw [h_num2] at h
      rw [if_pos (show (0 : Int) < f.numerator.tmod f.denominator + f.denominator by
        omega)] at h
      have h_absN2 : w32 |f.numerator.tmod f.denominator + f.denominator| =
          (((f.numerator.tmod f.denominator + f.denominator).natAbs : Nat) : Int) := by
        rw [Int.abs_eq_natAbs]
        exact w32_eq_self (by omega) (by omega)
      rw [h_absN2] at h
      simp only [Int.toNat_ofNat] at h
      rw [gcdLoop_eq_gcd ((f.numerator.tmod f.denominator + f.denominator).natAbs +
            f.denominator.natAbs + 1)
          (f.numerator.tmod f.denominator + f.denominator).natAbs f.denominator.natAbs
          (by omega) (by omega) (by omega)] at h
      simp only [] at h
      exact finish_tail hd hdr (by omega) (by omega)
        (by intro hc; omega) (w32_int32 _) h
    · -- no adjustment
      simp only [if_neg hadj] at h
      have h_absN2 : w32 |f.numerator.tmod f.denominator| =
          (((f.numerator.tmod f.denominator).natAbs : Nat) : Int) := by
        rw [Int.abs_eq_natAbs]
        exact w32_eq_self (by omega) (by omega)
      rw [h_absN2] at h
      simp only [Int.toNat_ofNat] at h
      rw [gcdLoop_eq_gcd ((f.numerator.tmod f.denominator).natAbs +
            f.denominator.natAbs + 1)
          (f.numerator.tmod f.denominator).natAbs f.denominator.natAbs
          (by omega) (by omega) (by omega)] at h
      simp only [] at h
      push_neg at hadj
      exact finish_tail hd hdr hN1 h_tmod_abs hadj (w32_int32 _) h

/-- Every `postSimplify` state is a fixed point of `simplify`. -/
theorem simplify_fixed {g : Frac} (hg : g.postSimplify) : g.simplify = some g := by
  obtain ⟨hdpos, hn0, habs, hcop, hsign, hnr, hdr, hwr⟩ := hg
  have hnr1 : -(2 ^ 31) ≤ g.numerator := hnr.1
  have hnr2 : g.numerator ≤ 2 ^ 31 - 1 := hnr.2
  have hdr1 : -(2 ^ 31) ≤ g.denominator := hdr.1
  have hdr2 : g.denominator ≤ 2 ^ 31 - 1 := hdr.2
  have hd0 : g.denominator ≠ 0 := by omega
  unfold Frac.simplify
  rw [if_neg hd0, if_neg hn0]
  simp only []
  have h_tdiv0 : g.numerator.tdiv g.denominator = 0 := by
    have h1 : (g.numerator.tdiv g.denominator).natAbs = 0 := by
      rw [Int.natAbs_tdiv]
      exact Nat.div_eq_of_lt habs
    omega
  have h_tmod : g.numerator.tmod g.denominator = g.numerator := tmod_eq_self habs
  rw [h_tdiv0, h_tmod]
  rw [show w32 (0 : Int) = 0 from by decide, add_zero]
  have hwW : w32 g.whole = g.whole := w32_eq_self hwr.1 (by have := hwr.2; omega)
  rw [hwW]
  have hnum1 : w32 g.numerator = g.numerator := w32_eq_self hnr.1 (by have := hnr.2; omega)
  rw [hnum1]
  have hadj : ¬ (g.numerator < 0 ∧ g.whole ≠ 0) := by
    intro hc
    exact hc.2 (hsign hc.1)
  rw [if_neg hadj, if_neg hadj]
  have habsN : w32 |g.numerator| = ((g.numerator.natAbs : Nat) : Int) := by
    rw [Int.abs_eq_natAbs]
    exact w32_eq_self (by omega) (by omega)
  have habsD : w32 |g.denominator| = ((g.denominator.natAbs : Nat) : Int) := by
    rw [Int.abs_eq_natAbs]
    exact w32_eq_self (by omega) (by omega)
  rw [habsN, habsD, Int.toNat_ofNat, Int.toNat_ofNat]
  rw [gcdLoop_eq_gcd (g.numerator.natAbs + g.denominator.natAbs + 1)
      g.numerator.natAbs g.denominator.natAbs (by omega) (by omega) (by omega)]
  rw [hcop]
  simp only []
  rw [Nat.cast_one, Int.tdiv_one, Int.tdiv_one, hnum1]
  have hden1 : w32 g.denominator = g.denominator :=
    w32_eq_self hdr.1 (by have := hdr.2; omega)
  rw [hden1]
  rw [if_neg (by omega)]

/-- C8 (amended): `simplify` is idempotent on every `Frac` with in-range
fields and a *non-negative* denominator: whenever `simplify x` is defined
and yields `y`, applying `simplify` to `y` yields `y` field-wise
unchanged.  (The counterexample above shows idempotency fails for negative
denominators, where the final sign flip can recreate a negative numerator
beside a nonzero whole part.) -/
theorem simplify_idempotent (f g : Frac) (hr : f.inRange) (hd : 0 ≤ f.denominator)
    (h : f.simplify = some g) : g.simplify = some g := by
  obtain ⟨hnr, hdr, hwr⟩ := hr
  by_cases h0 : f.denominator = 0
  · have hg : g = f := by
      unfold Frac.simplify at h
      rw [if_pos h0] at h
      exact (Option.some.inj h).symm
    subst hg
    unfold Frac.simplify
    rw [if_pos h0]
  · by_cases h1 : f.numerator = 0
    · have hg : g = { numerator := 0, denominator := 1, whole := 0 } := by
        unfold Frac.simplify at h
        rw [if_neg h0, if_pos h1] at h
        exact (Option.some.inj h).symm
      subst hg
      decide
    · exact simplify_fixed (simplify_inv (by omega) hdr h1 h)

/-- Witness for C8 (amended) at `3/6`: the fields are in range, the
denominator is non-negative, one `simplify` yields `1/2`, and the theorem
shows `1/2` is a fixed point. -/
theorem simplify_idempotent_witness :
    Frac.inRange { numerator := 3, denominator := 6, whole := 0 } ∧
    (0 : Int) ≤ ({ numerator := 3, denominator := 6, whole := 0 } : Frac).denominator ∧
    Frac.simplify { numerator := 3, denominator := 6, whole := 0 } =
      some { numerator := 1, denominator := 2, whole := 0 } ∧
    Frac.simplify { numerator := 1, denominator := 2, whole := 0 } =
      some { numerator := 1, denominator := 2, whole := 0 } :=
  ⟨by decide, by decide, by decide,
    simplify_idempotent { numerator := 3, denominator := 6, whole := 0 }
      { numerator := 1, denominator := 2, whole := 0 }
      (by decide) (by decide) (by decide)⟩

end FracLib
